import Mathlib

/-!
# Tox: the todo store (`db/db.go`) and the `add` command (`cmd/add.go`)

The Go code drives a SQLite database through SQL statements.  The embedding
below keeps the shape of the Go functions (one Lean function per Go function,
one branch per `if err != nil`) and gives each SQL statement its meaning on an
explicit database state:

* table `todos` is a list of rows (`Todo`), stored in insertion order;
* `sqlite_sequence` holds at most one counter for `todos` (`seq`);
* the temporary table `todos_temp` exists or not (`todos_temp`).

Every call into the storage engine may fail.  Which calls fail is given by a
fault oracle `Fault`, a predicate on the call sites (`Step`).
-/

set_option autoImplicit false

namespace Tox

/-! ## Data model -/

/-- Go `type Todo struct`, which is also one row of table `todos`.
`time.Time` is an abstract instant; `DoneAt` is the nullable column `done_at`. -/
structure Todo where
  ID : Int
  Task : String
  Done : Bool
  CreatedAt : Nat
  DoneAt : Option Nat
  deriving DecidableEq, Repr

/-- One row of `todos_temp`: the select list
`NULL as id, task, done, created_at, done_at` (the `id` column is always NULL,
so it carries no data). -/
structure TempRow where
  Task : String
  Done : Bool
  CreatedAt : Nat
  DoneAt : Option Nat
  deriving DecidableEq, Repr

/-- The database behind `Manager.db`. -/
structure DB where
  todos : List Todo
  seq : Option Int
  todos_temp : Option (List TempRow)
  deriving DecidableEq, Repr

/-- The database right after `NewManager` created it: `CREATE TABLE IF NOT
EXISTS todos (...)` on a fresh file. -/
def DB.empty : DB := { todos := [], seq := none, todos_temp := none }

/-- The errors the Go functions return. -/
inductive Err where
  | notFound (id : Int)
  | storage (msg : String)
  | invalid (msg : String)
  deriving DecidableEq, Repr

/-- The places where the Go code calls the storage engine and checks `err`. -/
inductive Step where
  | insert | lastInsertId
  | query | scan
  | update | updateRows
  | txBegin | txCommit
  | delete | deleteRows
  | createTemp | clearTodos | resetSeq | reinsert | dropTemp
  deriving DecidableEq, Repr

/-- Fault oracle: `f s = true` when the engine call at site `s` reports an error. -/
abbrev Fault := Step → Bool

/-- The engine never fails. -/
def noFault : Fault := fun _ => false

/-! ## SQL statements -/

/-- Largest rowid SQLite accepts (`int64` maximum). -/
def MAX_ROWID : Int := 9223372036854775807

/-- Largest `id` stored in the table, `none` for an empty table. -/
def maxRowid : List Todo → Option Int
  | [] => none
  | r :: rs =>
    match maxRowid rs with
    | none => some r.ID
    | some m => some (max r.ID m)

/-- The rowid an `INTEGER PRIMARY KEY AUTOINCREMENT` column gets on insert:
one more than the larger of the largest stored rowid and the `sqlite_sequence`
counter; `none` (SQLITE_FULL) once the largest rowid has been used. -/
def newRowid (todos : List Todo) (seq : Option Int) : Option Int :=
  match maxRowid todos with
  | none =>
    if seq.getD 0 = MAX_ROWID then none else some (max 1 (seq.getD 0 + 1))
  | some m =>
    if MAX_ROWID ≤ m ∨ seq.getD 0 = MAX_ROWID then none
    else some (max (m + 1) (seq.getD 0 + 1))

/-- Insert one row without an explicit `id`; the counter follows the new rowid. -/
def insertRow (db : DB) (r : TempRow) : Option DB :=
  match newRowid db.todos db.seq with
  | none => none
  | some v =>
    some { db with
      todos := db.todos ++
        [{ ID := v, Task := r.Task, Done := r.Done, CreatedAt := r.CreatedAt, DoneAt := r.DoneAt }],
      seq := some v }

/-- Insert rows one after the other, as `INSERT ... SELECT` does. -/
def insertRows : List TempRow → DB → Option DB
  | [], db => some db
  | r :: rs, db =>
    match insertRow db r with
    | none => none
    | some db1 => insertRows rs db1

/-- The order `ORDER BY id` compares rows with. -/
def idLe (a b : Todo) : Prop := a.ID ≤ b.ID

instance : DecidableRel idLe := fun a b => inferInstanceAs (Decidable (a.ID ≤ b.ID))

/-- The order `ORDER BY done, id` compares rows with (`done` is stored as 0 or 1). -/
def doneIdLe (a b : Todo) : Prop :=
  a.Done.toNat < b.Done.toNat ∨ (a.Done.toNat = b.Done.toNat ∧ a.ID ≤ b.ID)

instance : DecidableRel doneIdLe := fun a b =>
  inferInstanceAs (Decidable (a.Done.toNat < b.Done.toNat ∨ (a.Done.toNat = b.Done.toNat ∧ a.ID ≤ b.ID)))

instance : IsTotal Todo idLe := ⟨fun a b => Int.le_total a.ID b.ID⟩

instance : IsTrans Todo idLe := ⟨fun _ _ _ hab hbc => Int.le_trans hab hbc⟩

instance : IsTotal Todo doneIdLe := ⟨fun a b => by
  unfold doneIdLe
  rcases Nat.lt_trichotomy a.Done.toNat b.Done.toNat with h | h | h
  · exact Or.inl (Or.inl h)
  · rcases Int.le_total a.ID b.ID with h1 | h1
    · exact Or.inl (Or.inr ⟨h, h1⟩)
    · exact Or.inr (Or.inr ⟨h.symm, h1⟩)
  · exact Or.inr (Or.inl h)⟩

instance : IsTrans Todo doneIdLe := ⟨fun a b c hab hbc => by
  unfold doneIdLe at *
  rcases hab with h1 | ⟨h1, h2⟩ <;> rcases hbc with h3 | ⟨h3, h4⟩
  · exact Or.inl (by omega)
  · exact Or.inl (by omega)
  · exact Or.inl (by omega)
  · exact Or.inr ⟨by omega, by omega⟩⟩

/-- Select list `task, done, created_at, done_at` of a `todos` row. -/
def Todo.strip (t : Todo) : TempRow :=
  { Task := t.Task, Done := t.Done, CreatedAt := t.CreatedAt, DoneAt := t.DoneAt }

/-- The statement
`CREATE TEMPORARY TABLE todos_temp AS SELECT NULL as id, task, done, created_at, done_at
FROM todos ORDER BY id`. -/
def sqlCreateTemp (fail : Bool) (db : DB) : Except Err DB :=
  if fail then .error (.storage "create temporary table failed")
  else if db.todos_temp.isSome then .error (.storage "table todos_temp already exists")
  else .ok { db with todos_temp := some ((db.todos.insertionSort idLe).map Todo.strip) }

/-- The statement `DELETE FROM todos`. -/
def sqlClearTodos (fail : Bool) (db : DB) : Except Err DB :=
  if fail then .error (.storage "delete failed")
  else .ok { db with todos := [] }

/-- The statement `DELETE FROM sqlite_sequence WHERE name='todos'`. -/
def sqlResetSeq (fail : Bool) (db : DB) : Except Err DB :=
  if fail then .error (.storage "delete from sqlite_sequence failed")
  else .ok { db with seq := none }

/-- The statement
`INSERT INTO todos (task, done, created_at, done_at)
SELECT task, done, created_at, done_at FROM todos_temp`.
The rows of `todos_temp` are read in the order they were stored.  The statement
reads the counter of `todos` when it starts (0 when `sqlite_sequence` has no row for
the table) and writes it back when it ends, so the counter exists afterwards also when
no row was inserted.  A statement that fails changes nothing. -/
def sqlReinsert (fail : Bool) (db : DB) : Except Err DB :=
  if fail then .error (.storage "insert failed")
  else
    match db.todos_temp with
    | none => .error (.storage "no such table: todos_temp")
    | some rows =>
      match insertRows rows db with
      | none => .error (.storage "database or disk is full")
      | some db1 => .ok { db1 with seq := some (db1.seq.getD 0) }

/-- The statement `DROP TABLE todos_temp`. -/
def sqlDropTemp (fail : Bool) (db : DB) : Except Err DB :=
  if fail then .error (.storage "drop table failed")
  else if db.todos_temp.isSome then .ok { db with todos_temp := none }
  else .error (.storage "no such table: todos_temp")

/-! ## Transactions -/

/-- The handle `*sql.Tx`: the database as it was at `Begin`, the database as the
statements of the transaction have left it, and whether the transaction is over. -/
structure Tx where
  saved : DB
  cur : DB
  done : Bool
  deriving DecidableEq, Repr

/-- The call `m.db.Begin()`. -/
def Begin (f : Fault) (db : DB) : Except Err Tx :=
  if f .txBegin then .error (.storage "could not begin transaction")
  else .ok { saved := db, cur := db, done := false }

/-- The call `tx.Rollback()`: undoes the statements of an open transaction, and does
nothing on a transaction that is over. -/
def Tx.Rollback (tx : Tx) : Tx :=
  if tx.done then tx else { tx with cur := tx.saved, done := true }

/-- The call `tx.Commit()`: on success the statements stay; on failure the engine keeps
nothing of them.  Either way the transaction is over. -/
def Tx.Commit (f : Fault) (tx : Tx) : Option Err × Tx :=
  if f .txCommit then (some (.storage "commit failed"), { tx with cur := tx.saved, done := true })
  else (none, { tx with done := true })

/-! ## `db/db.go` -/

/-- Go `func (m *Manager) AddTodo(task string) (int64, error)`.
`now` is the value of `CURRENT_TIMESTAMP` the insert sees. -/
def AddTodo (task : String) (now : Nat) (f : Fault) (db : DB) : Except Err Int × DB :=
  if f .insert then (.error (.storage "could not add todo"), db)
  else
    match newRowid db.todos db.seq with
    | none => (.error (.storage "could not add todo"), db)
    | some v =>
      let db1 : DB := { db with
        todos := db.todos ++
          [{ ID := v, Task := task, Done := false, CreatedAt := now, DoneAt := none }],
        seq := some v }
      if f .lastInsertId then (.error (.storage "could not get last insert id"), db1)
      else (.ok v, db1)

/-- Go `func (m *Manager) ListTodos(showDone bool) ([]Todo, error)`. -/
def ListTodos (showDone : Bool) (f : Fault) (db : DB) : Except Err (List Todo) :=
  if f .query then .error (.storage "could not query todos")
  else
    let selected := if showDone then db.todos else db.todos.filter (fun t => t.Done == false)
    let rows := selected.insertionSort doneIdLe
    if f .scan && !rows.isEmpty then .error (.storage "could not scan todo")
    else .ok rows

/-- Go `func (m *Manager) MarkDone(id int64) error`; `now` is `time.Now()`. -/
def MarkDone (id : Int) (now : Nat) (f : Fault) (db : DB) : Option Err × DB :=
  if f .update then (some (.storage "could not mark todo as done"), db)
  else
    let db1 : DB := { db with
      todos := db.todos.map
        (fun t => if t.ID = id then { t with Done := true, DoneAt := some now } else t) }
    let rowsAffected := db.todos.countP (fun t => t.ID = id)
    if f .updateRows then (some (.storage "could not get rows affected"), db1)
    else if rowsAffected = 0 then (some (.notFound id), db1)
    else (none, db1)

/-- Go `func (m *Manager) reindexTodos(tx *sql.Tx) error`: five statements, the first
failing one ends the function. -/
def reindexTodos (f : Fault) (tx : Tx) : Option Err × Tx :=
  match sqlCreateTemp (f .createTemp) tx.cur with
  | .error e => (some e, tx)
  | .ok d1 =>
    match sqlClearTodos (f .clearTodos) d1 with
    | .error e => (some e, { tx with cur := d1 })
    | .ok d2 =>
      match sqlResetSeq (f .resetSeq) d2 with
      | .error e => (some e, { tx with cur := d2 })
      | .ok d3 =>
        match sqlReinsert (f .reinsert) d3 with
        | .error e => (some e, { tx with cur := d3 })
        | .ok d4 =>
          match sqlDropTemp (f .dropTemp) d4 with
          | .error e => (some e, { tx with cur := d4 })
          | .ok d5 => (none, { tx with cur := d5 })

/-- Go `func (m *Manager) ReindexAll() error`.  The deferred `tx.Rollback()` runs on
every way out once the transaction has begun. -/
def ReindexAll (f : Fault) (db : DB) : Option Err × DB :=
  match Begin f db with
  | .error e => (some e, db)
  | .ok tx =>
    match reindexTodos f tx with
    | (some e, tx1) => (some e, tx1.Rollback.cur)
    | (none, tx1) =>
      match tx1.Commit f with
      | (some _, tx2) => (some (.storage "could not commit transaction"), tx2.Rollback.cur)
      | (none, tx2) => (none, tx2.Rollback.cur)

/-- Go `func (m *Manager) DeleteTodo(id int64) error`. -/
def DeleteTodo (id : Int) (f : Fault) (db : DB) : Option Err × DB :=
  match Begin f db with
  | .error e => (some e, db)
  | .ok tx =>
    if f .delete then (some (.storage "could not delete todo"), tx.Rollback.cur)
    else
      let rowsAffected := tx.cur.todos.countP (fun t => t.ID = id)
      let tx1 : Tx := { tx with
        cur := { tx.cur with todos := tx.cur.todos.filter (fun t => t.ID ≠ id) } }
      if f .deleteRows then (some (.storage "could not get rows affected"), tx1.Rollback.cur)
      else if rowsAffected = 0 then (some (.notFound id), tx1.Rollback.cur)
      else
        match reindexTodos f tx1 with
        | (some _, tx2) => (some (.storage "could not reindex todos"), tx2.Rollback.cur)
        | (none, tx2) =>
          match tx2.Commit f with
          | (some _, tx3) => (some (.storage "could not commit transaction"), tx3.Rollback.cur)
          | (none, tx3) => (none, tx3.Rollback.cur)

/-! ## `cmd/add.go` -/

/-- Go `addCmd.RunE`: on success the value printed is the new id and the task. -/
def addRunE (args : List String) (now : Nat) (f : Fault) (db : DB) :
    Except Err (Int × String) × DB :=
  if args.length = 0 then (.error (.invalid "Task cannot be empty"), db)
  else
    let task := " ".intercalate args
    match AddTodo task now f db with
    | (.error e, db1) => (.error e, db1)
    | (.ok id, db1) => (.ok (id, task), db1)

/-! ## Reachable states -/

/-- One call of a store operation that can change the database. -/
inductive Call where
  | add (task : String) (now : Nat)
  | markDone (id : Int) (now : Nat)
  | delete (id : Int)
  | reindex
  deriving DecidableEq, Repr

/-- The database after a call, whether the call reported an error or not. -/
def Call.run (c : Call) (f : Fault) (db : DB) : DB :=
  match c with
  | .add task now => (AddTodo task now f db).2
  | .markDone id now => (MarkDone id now f db).2
  | .delete id => (DeleteTodo id f db).2
  | .reindex => (ReindexAll f db).2

/-- The databases the store can be in: the empty one and what any call, under any
behaviour of the engine, makes of a reachable one. -/
inductive Reachable : DB → Prop where
  | init : Reachable DB.empty
  | step {db : DB} (c : Call) (f : Fault) : Reachable db → Reachable (c.run f db)

/-- The number of rows of `l` whose id is smaller than `t`'s: the place of `t` in the
order by id, counted from 0. -/
def rank (l : List Todo) (t : Todo) : Nat := l.countP (fun u => u.ID < t.ID)

/-- The ids `1, 2, ..., n`. -/
def idsUpTo (n : Nat) : List Int := (List.range' 1 n).map Int.ofNat

/-- The store of the scenario `{5:"A", 9:"B"}`, with a counter left past the stored ids. -/
def dbA5B9 : DB :=
  { todos := [⟨9, "B", false, 20, none⟩, ⟨5, "A", true, 10, some 15⟩],
    seq := some 12, todos_temp := none }

/-- The store of `dbA5B9` renumbered. -/
def dbA1B2 : DB :=
  { todos := [⟨1, "A", true, 10, some 15⟩, ⟨2, "B", false, 20, none⟩],
    seq := some 2, todos_temp := none }

/-- The store after `Create("Buy milk")` at time 1 and `Create("Call mom")` at time 2. -/
def dbMilkMom : DB :=
  { todos := [⟨1, "Buy milk", false, 1, none⟩, ⟨2, "Call mom", false, 2, none⟩],
    seq := some 2, todos_temp := none }

/-- The store with the one task "Call mom", numbered 1. -/
def dbMom : DB :=
  { todos := [⟨1, "Call mom", false, 2, none⟩], seq := some 1, todos_temp := none }

/-- The engine fails at the call site `s` and nowhere else. -/
def faultAt (s : Step) : Fault := fun x => decide (x = s)

/-- The engine calls `ReindexAll` makes. -/
def reindexSteps : List Step :=
  [.txBegin, .createTemp, .clearTodos, .resetSeq, .reinsert, .dropTemp, .txCommit]

/-- The engine calls `DeleteTodo` makes. -/
def deleteSteps : List Step :=
  [.txBegin, .delete, .deleteRows, .createTemp, .clearTodos, .resetSeq, .reinsert, .dropTemp,
    .txCommit]

/-- The store `dbMilkMom` after `Create("Walk dog")` at time 3. -/
def dbMilkMomDog : DB :=
  { todos := [⟨1, "Buy milk", false, 1, none⟩, ⟨2, "Call mom", false, 2, none⟩,
      ⟨3, "Walk dog", false, 3, none⟩],
    seq := some 3, todos_temp := none }

/-- The store `dbMilkMom` after `Complete(1)` at time 5. -/
def dbMilkDoneMom : DB :=
  { todos := [⟨1, "Buy milk", true, 1, some 5⟩, ⟨2, "Call mom", false, 2, none⟩],
    seq := some 2, todos_temp := none }

/-- A store with an open and a done task stored out of id order. -/
def dbMixed : DB :=
  { todos := [⟨3, "C", false, 3, none⟩, ⟨1, "A", true, 1, some 4⟩, ⟨2, "B", false, 2, none⟩],
    seq := some 3, todos_temp := none }

/-- A store whose table is empty while the counter still stands at 12. -/
def dbEmptyCounter12 : DB := { todos := [], seq := some 12, todos_temp := none }

/-- The rows of `rows` given the rowids `v, v+1, ...` in order. -/
def renumFrom (v : Int) : List TempRow → List Todo
  | [] => []
  | r :: rs =>
    { ID := v, Task := r.Task, Done := r.Done, CreatedAt := r.CreatedAt, DoneAt := r.DoneAt }
      :: renumFrom (v + 1) rs

/-- The rowid `newRowid` hands out when the table is not full. -/
def nextVal (todos : List Todo) (seq : Option Int) : Int :=
  max (match maxRowid todos with
       | none => 1
       | some m => m + 1) (seq.getD 0 + 1)

/-- What holds of every database the store can be in: the ids are 1, ..., N in storage
order, the next rowid is N+1, no temporary table is left, and a row has a completion
time exactly when it is done. -/
structure Inv (db : DB) : Prop where
  ids : db.todos.map Todo.ID = idsUpTo db.todos.length
  next : nextVal db.todos db.seq = (db.todos.length : Int) + 1
  temp : db.todos_temp = none
  doneAt : ∀ t ∈ db.todos, t.DoneAt.isSome = t.Done

/-! ## Rowids -/

theorem maxRowid_append_single (l : List Todo) (t : Todo) :
    maxRowid (l ++ [t]) = some (match maxRowid l with
      | none => t.ID
      | some m => max m t.ID) := by
  induction l with
  | nil => simp [maxRowid]
  | cons a l ih =>
    rw [List.cons_append, maxRowid, ih]
    cases h : maxRowid l with
    | none => simp [maxRowid, h, max_comm]
    | some m => simp [maxRowid, h, max_assoc]

theorem newRowid_eq_some {todos : List Todo} {seq : Option Int} {v : Int}
    (h : newRowid todos seq = some v) : v = nextVal todos seq := by
  unfold newRowid at h
  unfold nextVal
  cases hm : maxRowid todos with
  | none =>
    rw [hm] at h
    simp only at h
    split at h
    · exact absurd h (by simp)
    · exact (Option.some.inj h).symm
  | some m =>
    rw [hm] at h
    simp only at h
    split at h
    · exact absurd h (by simp)
    · exact (Option.some.inj h).symm

theorem nextVal_after_insert (todos : List Todo) (seq : Option Int) (t : Todo)
    (ht : t.ID = nextVal todos seq) :
    nextVal (todos ++ [t]) (some t.ID) = nextVal todos seq + 1 := by
  unfold nextVal at *
  rw [maxRowid_append_single]
  cases hm : maxRowid todos with
  | none =>
    rw [hm] at ht
    simp only [Option.getD_some] at *
    generalize t.ID = x at *
    generalize seq.getD 0 = y at *
    simp only [max_def] at *
    split_ifs at * <;> omega
  | some m =>
    rw [hm] at ht
    simp only [Option.getD_some] at *
    generalize t.ID = x at *
    generalize seq.getD 0 = y at *
    simp only [max_def] at *
    split_ifs at * <;> omega

theorem insertRows_spec (rows : List TempRow) (db db1 : DB)
    (h : insertRows rows db = some db1) :
    db1.todos = db.todos ++ renumFrom (nextVal db.todos db.seq) rows ∧
    db1.todos_temp = db.todos_temp ∧
    db1.seq = (if rows = [] then db.seq
               else some (nextVal db.todos db.seq + rows.length - 1)) ∧
    nextVal db1.todos db1.seq = nextVal db.todos db.seq + rows.length := by
  induction rows generalizing db with
  | nil =>
    simp only [insertRows, Option.some.injEq] at h
    subst h
    simp [renumFrom]
  | cons r rs ih =>
    simp only [insertRows] at h
    cases hr : insertRow db r with
    | none => rw [hr] at h; exact absurd h (by simp)
    | some d =>
      rw [hr] at h
      simp only at h
      unfold insertRow at hr
      cases hv : newRowid db.todos db.seq with
      | none => rw [hv] at hr; exact absurd hr (by simp)
      | some v =>
        rw [hv] at hr
        simp only [Option.some.injEq] at hr
        have hv1 := newRowid_eq_some hv
        obtain ⟨h1, h2, h3, h4⟩ := ih d h
        subst hr
        simp only at h1 h2 h3 h4
        have hn := nextVal_after_insert db.todos db.seq
          { ID := v, Task := r.Task, Done := r.Done, CreatedAt := r.CreatedAt, DoneAt := r.DoneAt }
          hv1
        simp only at hn
        rw [hn] at h1 h3 h4
        refine ⟨?_, h2, ?_, ?_⟩
        rotate_left 2
        · rw [h4]
          simp only [List.length_cons]
          push_cast
          ring
        · rw [h1, ← hv1]
          simp [renumFrom, hv1]
        · rw [h3]
          by_cases hrs : rs = []
          · subst hrs
            simp [hv1]
          · simp only [hrs, if_false, List.length_cons, reduceCtorEq]
            congr 1
            push_cast
            ring

theorem renumFrom_length (v : Int) (rows : List TempRow) :
    (renumFrom v rows).length = rows.length := by
  induction rows generalizing v with
  | nil => rfl
  | cons r rs ih => simp [renumFrom, ih]

theorem renumFrom_ids (k : Nat) (rows : List TempRow) :
    (renumFrom (k : Int) rows).map Todo.ID = (List.range' k rows.length).map Int.ofNat := by
  induction rows generalizing k with
  | nil => rfl
  | cons r rs ih =>
    have := ih (k + 1)
    simp only [renumFrom, List.map_cons, List.length_cons, List.range'_succ]
    push_cast at this
    rw [this]
    simp

/-! ## The statements of `reindexTodos` -/

theorem sqlCreateTemp_ok {fail : Bool} {db d : DB} (h : sqlCreateTemp fail db = .ok d) :
    db.todos_temp = none ∧
    d = { db with todos_temp := some ((db.todos.insertionSort idLe).map Todo.strip) } := by
  unfold sqlCreateTemp at h
  split at h
  · exact absurd h (by simp)
  · split at h
    · exact absurd h (by simp)
    · rename_i _ hs
      simp only [Except.ok.injEq] at h
      refine ⟨?_, h.symm⟩
      cases ht : db.todos_temp with
      | none => rfl
      | some x => simp [ht] at hs

theorem sqlClearTodos_ok {fail : Bool} {db d : DB} (h : sqlClearTodos fail db = .ok d) :
    d = { db with todos := [] } := by
  unfold sqlClearTodos at h
  split at h
  · exact absurd h (by simp)
  · simp only [Except.ok.injEq] at h
    exact h.symm

theorem sqlResetSeq_ok {fail : Bool} {db d : DB} (h : sqlResetSeq fail db = .ok d) :
    d = { db with seq := none } := by
  unfold sqlResetSeq at h
  split at h
  · exact absurd h (by simp)
  · simp only [Except.ok.injEq] at h
    exact h.symm

theorem sqlReinsert_ok {fail : Bool} {db d : DB} (h : sqlReinsert fail db = .ok d) :
    ∃ rows d1, db.todos_temp = some rows ∧ insertRows rows db = some d1 ∧
      d = { d1 with seq := some (d1.seq.getD 0) } := by
  unfold sqlReinsert at h
  split at h
  · exact absurd h (by simp)
  · cases ht : db.todos_temp with
    | none => rw [ht] at h; exact absurd h (by simp)
    | some rows =>
      rw [ht] at h
      simp only at h
      cases hi : insertRows rows db with
      | none => rw [hi] at h; exact absurd h (by simp)
      | some d1 =>
        rw [hi] at h
        simp only [Except.ok.injEq] at h
        exact ⟨rows, d1, rfl, hi, h.symm⟩

theorem sqlDropTemp_ok {fail : Bool} {db d : DB} (h : sqlDropTemp fail db = .ok d) :
    d = { db with todos_temp := none } := by
  unfold sqlDropTemp at h
  split at h
  · exact absurd h (by simp)
  · split at h
    · simp only [Except.ok.injEq] at h
      exact h.symm
    · exact absurd h (by simp)

theorem nextVal_nil_none : nextVal [] none = 1 := by
  simp [nextVal, maxRowid]

theorem nextVal_getD (l : List Todo) (seq : Option Int) :
    nextVal l (some (seq.getD 0)) = nextVal l seq := by
  simp [nextVal]

/-- What a run of `reindexTodos` without error leaves in the transaction. -/
theorem reindexTodos_ok {f : Fault} {tx tx1 : Tx} (h : reindexTodos f tx = (none, tx1)) :
    tx.cur.todos_temp = none ∧ tx1.saved = tx.saved ∧ tx1.done = tx.done ∧
    tx1.cur.todos = renumFrom 1 ((tx.cur.todos.insertionSort idLe).map Todo.strip) ∧
    tx1.cur.todos_temp = none ∧
    tx1.cur.seq = some (tx.cur.todos.length : Int) ∧
    nextVal tx1.cur.todos tx1.cur.seq = (tx.cur.todos.length : Int) + 1 := by
  unfold reindexTodos at h
  cases h1 : sqlCreateTemp (f .createTemp) tx.cur with
  | error e => rw [h1] at h; exact absurd h (by simp)
  | ok d1 =>
    rw [h1] at h
    simp only at h
    cases h2 : sqlClearTodos (f .clearTodos) d1 with
    | error e => rw [h2] at h; exact absurd h (by simp)
    | ok d2 =>
      rw [h2] at h
      simp only at h
      cases h3 : sqlResetSeq (f .resetSeq) d2 with
      | error e => rw [h3] at h; exact absurd h (by simp)
      | ok d3 =>
        rw [h3] at h
        simp only at h
        cases h4 : sqlReinsert (f .reinsert) d3 with
        | error e => rw [h4] at h; exact absurd h (by simp)
        | ok d4 =>
          rw [h4] at h
          simp only at h
          cases h5 : sqlDropTemp (f .dropTemp) d4 with
          | error e => rw [h5] at h; exact absurd h (by simp)
          | ok d5 =>
            rw [h5] at h
            simp only [Prod.mk.injEq, true_and] at h
            obtain ⟨ht, hd1⟩ := sqlCreateTemp_ok h1
            have hd2 := sqlClearTodos_ok h2
            have hd3 := sqlResetSeq_ok h3
            obtain ⟨rows, d4r, hrows, hins, hd4⟩ := sqlReinsert_ok h4
            have hd5 := sqlDropTemp_ok h5
            obtain ⟨e1, e2, e3, e4⟩ := insertRows_spec rows d3 d4r hins
            subst hd1 hd2 hd3
            simp only [Option.some.injEq] at hrows
            subst hrows
            simp only [nextVal_nil_none, List.nil_append] at e1 e3 e4
            subst h
            subst hd5
            subst hd4
            refine ⟨ht, rfl, rfl, e1, rfl, ?_, ?_⟩
            rotate_left
            · simp only
              rw [nextVal_getD, e4]
              simp only [List.length_map, List.length_insertionSort]
              ring
            simp only
            rw [e3]
            by_cases hn : tx.cur.todos = []
            · simp [hn]
            · have : ¬ (List.map Todo.strip (List.insertionSort idLe tx.cur.todos) = []) := by
                intro hc
                have hl := congrArg List.length hc
                simp only [List.length_map, List.length_insertionSort, List.length_nil] at hl
                exact hn (List.length_eq_zero.mp hl)
              simp [this, List.length_insertionSort]

/-- Whatever `reindexTodos` does, it leaves the saved state and the open/over flag of
the transaction alone. -/
theorem reindexTodos_frame (f : Fault) (tx : Tx) :
    (reindexTodos f tx).2.saved = tx.saved ∧ (reindexTodos f tx).2.done = tx.done := by
  unfold reindexTodos
  repeat (first | (split <;> try exact ⟨rfl, rfl⟩) | exact ⟨rfl, rfl⟩)

/-! ## Ordering by id and renumbering -/

theorem rank_cons (a : Todo) (l : List Todo) (t : Todo) :
    rank (a :: l) t = rank l t + (if a.ID < t.ID then 1 else 0) := by
  simp [rank, List.countP_cons]

theorem rank_perm {l1 l2 : List Todo} (h : l1.Perm l2) (t : Todo) : rank l1 t = rank l2 t :=
  h.countP_eq _

/-- In a list strictly increasing in id, renumbering from `v` gives every row the id
`v + rank`. -/
theorem renumFrom_sorted (S : List Todo) (v : Int)
    (hS : S.Pairwise (fun a b => a.ID < b.ID)) :
    renumFrom v (S.map Todo.strip) = S.map (fun t => { t with ID := v + rank S t }) := by
  induction S generalizing v with
  | nil => rfl
  | cons a S ih =>
    rw [List.pairwise_cons] at hS
    obtain ⟨ha, hS1⟩ := hS
    have h0 : rank S a = 0 := by
      unfold rank
      rw [List.countP_eq_zero]
      intro u hu
      have := ha u hu
      simp only [decide_eq_true_eq]
      omega
    simp only [List.map_cons, renumFrom, Todo.strip]
    congr 1
    · simp [rank_cons, h0]
    · have := ih (v + 1) hS1
      simp only [Todo.strip] at this
      rw [this]
      apply List.map_congr_left
      intro t ht
      have hlt := ha t ht
      simp only [rank_cons, hlt, if_true]
      congr 1
      push_cast
      ring

theorem sorted_strict_of_nodup (l : List Todo) (hnd : (l.map Todo.ID).Nodup) :
    (l.insertionSort idLe).Pairwise (fun a b => a.ID < b.ID) := by
  have hs : (l.insertionSort idLe).Pairwise idLe := List.sorted_insertionSort idLe l
  have hp : (l.insertionSort idLe).Perm l := List.perm_insertionSort idLe l
  have hn : ((l.insertionSort idLe).map Todo.ID).Nodup := (hp.map Todo.ID).nodup_iff.mpr hnd
  have hne : (l.insertionSort idLe).Pairwise (fun a b => a.ID ≠ b.ID) := by
    have := hn
    unfold List.Nodup at this
    rw [List.pairwise_map] at this
    exact this
  exact (hs.and hne).imp (fun h => lt_of_le_of_ne h.1 h.2)

/-- Sorting by id and renumbering from 1 gives each row the id `1 + rank`, and keeps
each row once. -/
theorem renum_sort_perm (l : List Todo) (hnd : (l.map Todo.ID).Nodup) :
    (renumFrom 1 ((l.insertionSort idLe).map Todo.strip)).Perm
      (l.map (fun t => { t with ID := 1 + rank l t })) := by
  have hp : (l.insertionSort idLe).Perm l := List.perm_insertionSort idLe l
  rw [renumFrom_sorted _ 1 (sorted_strict_of_nodup l hnd)]
  have hfun : (fun t : Todo => ({ t with ID := 1 + (rank (l.insertionSort idLe) t : Int) } : Todo))
      = (fun t : Todo => ({ t with ID := 1 + (rank l t : Int) } : Todo)) := by
    funext t
    rw [rank_perm hp t]
  rw [hfun]
  exact hp.map _

theorem renum_sort_ids (l : List Todo) :
    (renumFrom 1 ((l.insertionSort idLe).map Todo.strip)).map Todo.ID = idsUpTo l.length := by
  have := renumFrom_ids 1 ((l.insertionSort idLe).map Todo.strip)
  simp only [List.length_map, List.length_insertionSort, Nat.cast_one] at this
  exact this

/-! ## `ReindexAll` and `DeleteTodo` -/

theorem ReindexAll_ok {f : Fault} {db db1 : DB} (h : ReindexAll f db = (none, db1)) :
    ∃ tx1, reindexTodos f { saved := db, cur := db, done := false } = (none, tx1) ∧
      db1 = tx1.cur := by
  unfold ReindexAll Begin at h
  split at h
  · simp at h
  · rename_i tx hb
    split at hb
    · simp at hb
    · simp only [Except.ok.injEq] at hb
      subst hb
      cases hr : reindexTodos f { saved := db, cur := db, done := false } with
      | mk r tx1 =>
        rw [hr] at h
        cases r with
        | some e => simp at h
        | none =>
          simp only [Tx.Commit] at h
          refine ⟨tx1, rfl, ?_⟩
          by_cases hc : f .txCommit = true
          · simp [hc] at h
          · simp only [hc, Tx.Rollback, if_true, Prod.mk.injEq, true_and, if_false,
              Bool.false_eq_true] at h
            exact h.symm

theorem DeleteTodo_ok {id : Int} {f : Fault} {db db1 : DB}
    (h : DeleteTodo id f db = (none, db1)) :
    db.todos.countP (fun t => t.ID = id) ≠ 0 ∧
    ∃ tx2, reindexTodos f
        { saved := db,
          cur := { db with todos := db.todos.filter (fun t => t.ID ≠ id) },
          done := false } = (none, tx2) ∧
      db1 = tx2.cur := by
  unfold DeleteTodo Begin at h
  split at h
  · simp at h
  · rename_i tx hb
    split at hb
    · simp at hb
    · simp only [Except.ok.injEq] at hb
      subst hb
      simp only at h
      split at h
      · simp at h
      · split at h
        · simp at h
        · split at h
          · simp at h
          · rename_i _ _ hcnt
            refine ⟨hcnt, ?_⟩
            split at h
            · simp at h
            · rename_i tx2 hr
              refine ⟨tx2, hr, ?_⟩
              simp only [Tx.Commit] at h
              by_cases hc : f .txCommit = true
              · simp [hc] at h
              · simp only [hc, Tx.Rollback, if_true, Prod.mk.injEq, true_and, if_false,
                  Bool.false_eq_true] at h
                exact h.symm

theorem filter_ne_length (l : List Todo) (k : Int)
    (hnd : (l.map Todo.ID).Nodup) (hk : k ∈ l.map Todo.ID) :
    (l.filter (fun t => t.ID ≠ k)).length + 1 = l.length := by
  have h1 : (l.map Todo.ID).count k = 1 := List.count_eq_one_of_mem hnd hk
  have h2 : l.countP (fun t => t.ID == k) = 1 := by
    rw [← h1, List.count, List.countP_map]
    rfl
  have h3 := List.length_eq_countP_add_countP (fun t : Todo => t.ID == k) l
  rw [h2, List.countP_eq_length_filter] at h3
  have h4 : (l.filter (fun t => t.ID ≠ k)) = l.filter (fun a => ¬ (a.ID == k) = true) := by
    congr 1
    funext t
    simp
  rw [h4]
  omega

/-! ## Failing runs -/

theorem sqlCreateTemp_fault (db : DB) : ∃ e, sqlCreateTemp true db = .error e :=
  ⟨_, rfl⟩

theorem sqlClearTodos_fault (db : DB) : ∃ e, sqlClearTodos true db = .error e :=
  ⟨_, rfl⟩

theorem sqlResetSeq_fault (db : DB) : ∃ e, sqlResetSeq true db = .error e :=
  ⟨_, rfl⟩

theorem sqlReinsert_fault (db : DB) : ∃ e, sqlReinsert true db = .error e :=
  ⟨_, rfl⟩

theorem sqlDropTemp_fault (db : DB) : ∃ e, sqlDropTemp true db = .error e :=
  ⟨_, rfl⟩

/-- A run of `reindexTodos` without error met no failing statement. -/
theorem reindexTodos_ok_steps {f : Fault} {tx tx1 : Tx} (h : reindexTodos f tx = (none, tx1)) :
    f .createTemp = false ∧ f .clearTodos = false ∧ f .resetSeq = false ∧
    f .reinsert = false ∧ f .dropTemp = false := by
  unfold reindexTodos at h
  cases h1 : sqlCreateTemp (f .createTemp) tx.cur with
  | error e => rw [h1] at h; exact absurd h (by simp)
  | ok d1 =>
    rw [h1] at h
    simp only at h
    cases h2 : sqlClearTodos (f .clearTodos) d1 with
    | error e => rw [h2] at h; exact absurd h (by simp)
    | ok d2 =>
      rw [h2] at h
      simp only at h
      cases h3 : sqlResetSeq (f .resetSeq) d2 with
      | error e => rw [h3] at h; exact absurd h (by simp)
      | ok d3 =>
        rw [h3] at h
        simp only at h
        cases h4 : sqlReinsert (f .reinsert) d3 with
        | error e => rw [h4] at h; exact absurd h (by simp)
        | ok d4 =>
          rw [h4] at h
          simp only at h
          cases h5 : sqlDropTemp (f .dropTemp) d4 with
          | error e => rw [h5] at h; exact absurd h (by simp)
          | ok d5 =>
            refine ⟨?_, ?_, ?_, ?_, ?_⟩
            · cases hf : f .createTemp with
              | false => rfl
              | true =>
                obtain ⟨e, he⟩ := sqlCreateTemp_fault tx.cur
                rw [hf, he] at h1
                exact absurd h1 (by simp)
            · cases hf : f .clearTodos with
              | false => rfl
              | true =>
                obtain ⟨e, he⟩ := sqlClearTodos_fault d1
                rw [hf, he] at h2
                exact absurd h2 (by simp)
            · cases hf : f .resetSeq with
              | false => rfl
              | true =>
                obtain ⟨e, he⟩ := sqlResetSeq_fault d2
                rw [hf, he] at h3
                exact absurd h3 (by simp)
            · cases hf : f .reinsert with
              | false => rfl
              | true =>
                obtain ⟨e, he⟩ := sqlReinsert_fault d3
                rw [hf, he] at h4
                exact absurd h4 (by simp)
            · cases hf : f .dropTemp with
              | false => rfl
              | true =>
                obtain ⟨e, he⟩ := sqlDropTemp_fault d4
                rw [hf, he] at h5
                exact absurd h5 (by simp)

theorem ReindexAll_ok_steps {f : Fault} {db db1 : DB} (h : ReindexAll f db = (none, db1)) :
    f .txBegin = false ∧ f .txCommit = false := by
  constructor
  · cases hf : f .txBegin with
    | false => rfl
    | true => simp [ReindexAll, Begin, hf] at h
  · cases hf : f .txCommit with
    | false => rfl
    | true =>
      unfold ReindexAll at h
      split at h
      · simp at h
      · split at h
        · simp at h
        · simp [Tx.Commit, hf] at h

theorem DeleteTodo_ok_steps {id : Int} {f : Fault} {db db1 : DB}
    (h : DeleteTodo id f db = (none, db1)) :
    f .txBegin = false ∧ f .delete = false ∧ f .deleteRows = false ∧ f .txCommit = false := by
  refine ⟨?_, ?_, ?_, ?_⟩
  · cases hf : f .txBegin with
    | false => rfl
    | true => simp [DeleteTodo, Begin, hf] at h
  · cases hf : f .delete with
    | false => rfl
    | true =>
      unfold DeleteTodo at h
      split at h
      · simp at h
      · simp [hf] at h
  · cases hf : f .deleteRows with
    | false => rfl
    | true =>
      unfold DeleteTodo at h
      split at h
      · simp at h
      · split at h
        · simp at h
        · simp [hf] at h
  · cases hf : f .txCommit with
    | false => rfl
    | true =>
      unfold DeleteTodo at h
      split at h
      · simp at h
      · split at h
        · simp at h
        · split at h
          · simp at h
          · dsimp only at h
            split at h
            · simp at h
            · split at h
              · simp at h
              · simp [Tx.Commit, hf] at h

/-- A `ReindexAll` that returns an error leaves the database as it was. -/
theorem ReindexAll_err (f : Fault) (db : DB) (h : (ReindexAll f db).1 ≠ none) :
    (ReindexAll f db).2 = db := by
  unfold ReindexAll Begin at *
  by_cases hb : f .txBegin = true
  · simp [hb]
  · simp only [hb, if_false, Bool.false_eq_true] at h ⊢
    obtain ⟨hs, hd⟩ := reindexTodos_frame f { saved := db, cur := db, done := false }
    cases hr : reindexTodos f { saved := db, cur := db, done := false } with
    | mk r tx1 =>
      rw [hr] at hs hd h
      simp only at hs hd
      cases r with
      | some e => simp [Tx.Rollback, hd, hs]
      | none =>
        by_cases hc : f .txCommit = true
        · simp [Tx.Commit, Tx.Rollback, hc, hs]
        · simp [Tx.Commit, Tx.Rollback, hc] at h

/-- A `DeleteTodo` that returns an error leaves the database as it was. -/
theorem DeleteTodo_err (id : Int) (f : Fault) (db : DB) (h : (DeleteTodo id f db).1 ≠ none) :
    (DeleteTodo id f db).2 = db := by
  unfold DeleteTodo Begin at *
  by_cases hb : f .txBegin = true
  · simp [hb]
  · simp only [hb, if_false, Bool.false_eq_true] at h ⊢
    by_cases h1 : f .delete = true
    · simp [h1, Tx.Rollback]
    · by_cases h2 : f .deleteRows = true
      · simp [h1, h2, Tx.Rollback]
      · by_cases h3 : db.todos.countP (fun t => t.ID = id) = 0
        · simp [h1, h2, h3, Tx.Rollback]
        · simp only [h1, h2, h3, if_false, Bool.false_eq_true] at h ⊢
          obtain ⟨hs, hd⟩ := reindexTodos_frame f
            { saved := db,
              cur := { db with todos := db.todos.filter (fun t => t.ID ≠ id) },
              done := false }
          cases hr : reindexTodos f
            { saved := db,
              cur := { db with todos := db.todos.filter (fun t => t.ID ≠ id) },
              done := false } with
          | mk r tx2 =>
            rw [hr] at hs hd h
            simp only at hs hd
            cases r with
            | some e => simp [Tx.Rollback, hd, hs]
            | none =>
              by_cases hc : f .txCommit = true
              · simp [Tx.Commit, Tx.Rollback, hc, hs]
              · simp [Tx.Commit, Tx.Rollback, hc] at h

/-! ## The invariant of reachable states -/

theorem idsUpTo_succ (n : Nat) : idsUpTo (n + 1) = idsUpTo n ++ [((n : Int) + 1)] := by
  simp [idsUpTo, List.range'_1_concat, Nat.add_comm 1 n]

theorem idsUpTo_nodup (n : Nat) : (idsUpTo n).Nodup := by
  unfold idsUpTo
  exact (List.nodup_range' 1 n).map (fun a b h => Int.ofNat.inj h)

theorem mem_idsUpTo {n : Nat} {x : Int} : x ∈ idsUpTo n ↔ 1 ≤ x ∧ x ≤ n := by
  unfold idsUpTo
  simp only [List.mem_map, List.mem_range'_1]
  constructor
  · rintro ⟨a, ⟨h1, h2⟩, rfl⟩
    simp only [Int.ofNat_eq_coe]
    omega
  · rintro ⟨h1, h2⟩
    refine ⟨x.toNat, ⟨by omega, by omega⟩, ?_⟩
    simp only [Int.ofNat_eq_coe]
    omega

theorem inv_empty : Inv DB.empty :=
  ⟨rfl, by simp [DB.empty, nextVal_nil_none], rfl, by simp [DB.empty]⟩

/-- The database `AddTodo` leaves: the old one, or the old one with a row appended. -/
theorem AddTodo_db (task : String) (now : Nat) (f : Fault) (db : DB) :
    (AddTodo task now f db).2 = db ∨
    ∃ v, newRowid db.todos db.seq = some v ∧
      (AddTodo task now f db).2 =
        { db with
          todos := db.todos ++
            [{ ID := v, Task := task, Done := false, CreatedAt := now, DoneAt := none }],
          seq := some v } := by
  unfold AddTodo
  split
  · exact Or.inl rfl
  · split
    · exact Or.inl rfl
    · rename_i v hv
      refine Or.inr ⟨v, hv, ?_⟩
      dsimp only
      split <;> rfl

/-- A successful `AddTodo` returns the new rowid and leaves the row appended. -/
theorem AddTodo_ok {task : String} {now : Nat} {f : Fault} {db db1 : DB} {id : Int}
    (h : AddTodo task now f db = (.ok id, db1)) :
    newRowid db.todos db.seq = some id ∧
    db1 = { db with
      todos := db.todos ++
        [{ ID := id, Task := task, Done := false, CreatedAt := now, DoneAt := none }],
      seq := some id } := by
  unfold AddTodo at h
  split at h
  · simp at h
  · split at h
    · simp at h
    · rename_i v hv
      dsimp only at h
      split at h
      · simp at h
      · simp only [Prod.mk.injEq, Except.ok.injEq] at h
        obtain ⟨h1, h2⟩ := h
        subst h1
        exact ⟨hv, h2.symm⟩

theorem inv_insert {db : DB} (hinv : Inv db) {v : Int} (hv : newRowid db.todos db.seq = some v)
    (task : String) (now : Nat) :
    Inv { db with
      todos := db.todos ++
        [{ ID := v, Task := task, Done := false, CreatedAt := now, DoneAt := none }],
      seq := some v } := by
  have hv1 := newRowid_eq_some hv
  have hv2 : v = (db.todos.length : Int) + 1 := by rw [hv1, hinv.next]
  refine ⟨?_, ?_, hinv.temp, ?_⟩
  · simp only [List.map_append, List.map_cons, List.map_nil, List.length_append,
      List.length_singleton, idsUpTo_succ, hinv.ids, hv2]
  · have := nextVal_after_insert db.todos db.seq
      { ID := v, Task := task, Done := false, CreatedAt := now, DoneAt := none } hv1
    simp only at this
    simp only [this, hinv.next, List.length_append, List.length_singleton]
    push_cast
    ring
  · intro t ht
    simp only [List.mem_append, List.mem_singleton] at ht
    rcases ht with ht | rfl
    · exact hinv.doneAt t ht
    · rfl

theorem maxRowid_map (g : Todo → Todo) (hg : ∀ t, (g t).ID = t.ID) (l : List Todo) :
    maxRowid (l.map g) = maxRowid l := by
  induction l with
  | nil => rfl
  | cons a l ih => simp only [List.map_cons, maxRowid, ih, hg]

/-- The database `MarkDone` leaves: the old one, or the old one with the rows numbered
`id` marked. -/
theorem MarkDone_db (id : Int) (now : Nat) (f : Fault) (db : DB) :
    (MarkDone id now f db).2 = db ∨
    (MarkDone id now f db).2 =
      { db with
        todos := db.todos.map
          (fun t => if t.ID = id then { t with Done := true, DoneAt := some now } else t) } := by
  unfold MarkDone
  split
  · exact Or.inl rfl
  · dsimp only
    split
    · exact Or.inr rfl
    · split <;> exact Or.inr rfl

theorem inv_mark {db : DB} (hinv : Inv db) (id : Int) (now : Nat) :
    Inv { db with
      todos := db.todos.map
        (fun t => if t.ID = id then { t with Done := true, DoneAt := some now } else t) } := by
  have hg : ∀ t : Todo,
      (if t.ID = id then ({ t with Done := true, DoneAt := some now } : Todo) else t).ID = t.ID := by
    intro t
    split <;> rfl
  refine ⟨?_, ?_, hinv.temp, ?_⟩
  · simp only [List.map_map, List.length_map]
    rw [← hinv.ids]
    apply List.map_congr_left
    intro t _
    exact hg t
  · simp only [List.length_map]
    rw [← hinv.next]
    unfold nextVal
    rw [maxRowid_map _ hg]
  · intro t ht
    simp only [List.mem_map] at ht
    obtain ⟨u, hu, rfl⟩ := ht
    split
    · rfl
    · exact hinv.doneAt u hu

theorem renumFrom_mem {v : Int} {rows : List TempRow} {t : Todo} (h : t ∈ renumFrom v rows) :
    t.strip ∈ rows := by
  induction rows generalizing v with
  | nil => simp [renumFrom] at h
  | cons r rs ih =>
    simp only [renumFrom, List.mem_cons] at h
    rcases h with rfl | h
    · exact List.mem_cons_self _ _
    · exact List.mem_cons_of_mem _ (ih h)

/-- A run of `reindexTodos` without error on rows that satisfy the completion-time rule
leaves a database that satisfies the invariant. -/
theorem inv_reindexTodos {f : Fault} {tx tx1 : Tx} (h : reindexTodos f tx = (none, tx1))
    (hd : ∀ t ∈ tx.cur.todos, t.DoneAt.isSome = t.Done) : Inv tx1.cur := by
  obtain ⟨_, _, _, htodos, htemp, _, hnext⟩ := reindexTodos_ok h
  have hlen : tx1.cur.todos.length = tx.cur.todos.length := by
    rw [htodos]
    simp [renumFrom_length]
  refine ⟨?_, ?_, htemp, ?_⟩
  · rw [hlen, htodos]
    exact renum_sort_ids _
  · rw [hnext, hlen]
  · intro t ht
    rw [htodos] at ht
    have hm := renumFrom_mem ht
    simp only [List.mem_map] at hm
    obtain ⟨u, hu, hut⟩ := hm
    have hu1 : u ∈ tx.cur.todos := (List.perm_insertionSort idLe _).subset hu
    have h1 : u.Done = t.Done := congrArg TempRow.Done hut
    have h2 : u.DoneAt = t.DoneAt := congrArg TempRow.DoneAt hut
    rw [← h1, ← h2]
    exact hd u hu1

theorem inv_ReindexAll {db : DB} (hinv : Inv db) (f : Fault) : Inv (ReindexAll f db).2 := by
  cases hr : (ReindexAll f db).1 with
  | some e =>
    rw [ReindexAll_err f db (by rw [hr]; simp)]
    exact hinv
  | none =>
    have hok : ReindexAll f db = (none, (ReindexAll f db).2) := Prod.ext hr rfl
    obtain ⟨tx1, hrt, hdb⟩ := ReindexAll_ok hok
    rw [hdb]
    exact inv_reindexTodos hrt hinv.doneAt

theorem inv_DeleteTodo {db : DB} (hinv : Inv db) (id : Int) (f : Fault) :
    Inv (DeleteTodo id f db).2 := by
  cases hr : (DeleteTodo id f db).1 with
  | some e =>
    rw [DeleteTodo_err id f db (by rw [hr]; simp)]
    exact hinv
  | none =>
    have hok : DeleteTodo id f db = (none, (DeleteTodo id f db).2) := Prod.ext hr rfl
    obtain ⟨_, tx2, hrt, hdb⟩ := DeleteTodo_ok hok
    rw [hdb]
    exact inv_reindexTodos hrt (fun t ht => hinv.doneAt t (List.mem_of_mem_filter ht))

theorem inv_run {db : DB} (hinv : Inv db) (c : Call) (f : Fault) : Inv (c.run f db) := by
  cases c with
  | add task now =>
    rcases AddTodo_db task now f db with h | ⟨v, hv, h⟩
    · simp only [Call.run, h]; exact hinv
    · simp only [Call.run, h]; exact inv_insert hinv hv task now
  | markDone id now =>
    rcases MarkDone_db id now f db with h | h
    · simp only [Call.run, h]; exact hinv
    · simp only [Call.run, h]; exact inv_mark hinv id now
  | delete id => exact inv_DeleteTodo hinv id f
  | reindex => exact inv_ReindexAll hinv f

/-- Every reachable database satisfies the invariant. -/
theorem inv_of_reachable {db : DB} (h : Reachable db) : Inv db := by
  induction h with
  | init => exact inv_empty
  | step c f _ ih => exact inv_run ih c f

theorem reachable_dbMilkMom : Reachable dbMilkMom :=
  Reachable.step (.add "Call mom" 2) noFault
    (Reachable.step (.add "Buy milk" 1) noFault Reachable.init)

/-! ## Runs that succeed -/

theorem newRowid_of_le {todos : List Todo} {seq : Option Int}
    (h : nextVal todos seq ≤ MAX_ROWID) : newRowid todos seq = some (nextVal todos seq) := by
  unfold newRowid
  unfold nextVal at *
  cases hm : maxRowid todos with
  | none =>
    rw [hm] at h
    simp only at h ⊢
    have hne : ¬ (seq.getD 0 = MAX_ROWID) := by
      intro he
      generalize seq.getD 0 = y at *
      simp only [max_def] at h
      split_ifs at h <;> omega
    simp [hne]
  | some m =>
    rw [hm] at h
    simp only at h ⊢
    have hne : ¬ (MAX_ROWID ≤ m ∨ seq.getD 0 = MAX_ROWID) := by
      intro he
      generalize seq.getD 0 = y at *
      simp only [max_def] at h
      split_ifs at h <;> omega
    simp [hne]

theorem insertRows_succeeds (rows : List TempRow) (db : DB)
    (h : nextVal db.todos db.seq + rows.length ≤ MAX_ROWID + 1) :
    ∃ db1, insertRows rows db = some db1 := by
  induction rows generalizing db with
  | nil => exact ⟨db, rfl⟩
  | cons r rs ih =>
    simp only [List.length_cons] at h
    push_cast at h
    have hle : nextVal db.todos db.seq ≤ MAX_ROWID := by omega
    have hnew := newRowid_of_le hle
    simp only [insertRows, insertRow, hnew]
    apply ih
    have := nextVal_after_insert db.todos db.seq
      { ID := nextVal db.todos db.seq, Task := r.Task, Done := r.Done,
        CreatedAt := r.CreatedAt, DoneAt := r.DoneAt } rfl
    simp only at this ⊢
    rw [this]
    omega

/-- With an engine that does not fail, no temporary table left over and fewer than 2^63
rows, `reindexTodos` returns no error. -/
theorem reindexTodos_succeeds (f : Fault) (tx : Tx) (hf : ∀ s, f s = false)
    (ht : tx.cur.todos_temp = none) (hn : (tx.cur.todos.length : Int) ≤ MAX_ROWID) :
    (reindexTodos f tx).1 = none := by
  obtain ⟨db1, h1⟩ := insertRows_succeeds ((tx.cur.todos.insertionSort idLe).map Todo.strip)
    { todos := [], seq := none,
      todos_temp := some ((tx.cur.todos.insertionSort idLe).map Todo.strip) }
    (by
      simp only [nextVal_nil_none, List.length_map, List.length_insertionSort]
      omega)
  have h2 : db1.todos_temp = some ((tx.cur.todos.insertionSort idLe).map Todo.strip) :=
    (insertRows_spec _ _ _ h1).2.1
  simp [reindexTodos, sqlCreateTemp, sqlClearTodos, sqlResetSeq, sqlReinsert, sqlDropTemp,
    hf, ht, h1, h2]

/-- With an engine that does not fail, no temporary table left over and fewer than 2^63
rows, `ReindexAll` returns no error. -/
theorem ReindexAll_succeeds (f : Fault) (db : DB) (hf : ∀ s, f s = false)
    (ht : db.todos_temp = none) (hn : (db.todos.length : Int) ≤ MAX_ROWID) :
    (ReindexAll f db).1 = none := by
  have h := reindexTodos_succeeds f { saved := db, cur := db, done := false } hf ht hn
  unfold ReindexAll Begin
  simp only [hf, if_false, Bool.false_eq_true]
  cases hr : reindexTodos f { saved := db, cur := db, done := false } with
  | mk r tx1 =>
    rw [hr] at h
    simp only at h
    subst h
    simp [Tx.Commit, hf]

/-- With an engine that does not fail, no temporary table left over and fewer than 2^63
rows, `DeleteTodo` of a stored id returns no error. -/
theorem DeleteTodo_succeeds (id : Int) (f : Fault) (db : DB) (hf : ∀ s, f s = false)
    (ht : db.todos_temp = none) (hn : (db.todos.length : Int) ≤ MAX_ROWID)
    (hk : id ∈ db.todos.map Todo.ID) :
    (DeleteTodo id f db).1 = none := by
  have hcnt : db.todos.countP (fun t => t.ID = id) ≠ 0 := by
    obtain ⟨t, ht1, hte⟩ := List.mem_map.mp hk
    have : 0 < db.todos.countP (fun t => t.ID = id) :=
      List.countP_pos_iff.mpr ⟨t, ht1, by simp [hte]⟩
    omega
  have hlen : ((db.todos.filter (fun t => t.ID ≠ id)).length : Int) ≤ MAX_ROWID := by
    have := List.length_filter_le (fun t : Todo => decide (t.ID ≠ id)) db.todos
    omega
  have h := reindexTodos_succeeds f
    { saved := db,
      cur := { db with todos := db.todos.filter (fun t => t.ID ≠ id) },
      done := false } hf ht hlen
  unfold DeleteTodo Begin
  simp only [hf, if_false, Bool.false_eq_true, hcnt]
  cases hr : reindexTodos f
    { saved := db,
      cur := { db with todos := db.todos.filter (fun t => t.ID ≠ id) },
      done := false } with
  | mk r tx2 =>
    rw [hr] at h
    simp only at h
    subst h
    simp [Tx.Commit, hf]

/-! ## Claims about renumbering -/

/-- C1. In a store of N tasks with pairwise distinct ids, a `ReindexAll` that returns no
error leaves N tasks, their ids are 1, 2, ..., N, and the stored tasks are exactly the
former ones, each with its id replaced by one plus the number of former ids below its
own (so the task with the i-th smallest id gets id i) and with task text, done flag,
creation time and completion time as before. -/
theorem reindexAll_renumbers (f : Fault) (db db1 : DB)
    (hnd : (db.todos.map Todo.ID).Nodup)
    (hok : ReindexAll f db = (none, db1)) :
    db1.todos.length = db.todos.length ∧
    db1.todos.map Todo.ID = idsUpTo db.todos.length ∧
    db1.todos.Perm (db.todos.map (fun t => { t with ID := 1 + rank db.todos t })) := by
  obtain ⟨tx1, hr, hdb⟩ := ReindexAll_ok hok
  obtain ⟨_, _, _, htodos, _, _, _⟩ := reindexTodos_ok hr
  simp only at htodos
  subst hdb
  rw [htodos]
  refine ⟨?_, renum_sort_ids db.todos, renum_sort_perm db.todos hnd⟩
  simp [renumFrom_length]

/-- C1, at the store `{5:"A", 9:"B"}`: it becomes `{1:"A", 2:"B"}`. -/
theorem reindexAll_renumbers_witness :
    (dbA5B9.todos.map Todo.ID).Nodup ∧
    ReindexAll noFault dbA5B9 = (none, dbA1B2) ∧
    (dbA1B2.todos.length = dbA5B9.todos.length ∧
     dbA1B2.todos.map Todo.ID = idsUpTo dbA5B9.todos.length ∧
     dbA1B2.todos.Perm (dbA5B9.todos.map (fun t => { t with ID := 1 + rank dbA5B9.todos t }))) :=
  ⟨by decide, by decide, reindexAll_renumbers noFault dbA5B9 dbA1B2 (by decide) (by decide)⟩

/-- C2. In a store of N tasks with pairwise distinct ids, one of them k, a `DeleteTodo k`
that returns no error leaves N-1 tasks, their ids are 1, ..., N-1, and the stored tasks
are exactly the former tasks other than the one numbered k, each with its id replaced by
one plus the number of other remaining ids below its own and with task text, done flag
and times as before. -/
theorem deleteTodo_removes_and_renumbers (k : Int) (f : Fault) (db db1 : DB)
    (hnd : (db.todos.map Todo.ID).Nodup)
    (hk : k ∈ db.todos.map Todo.ID)
    (hok : DeleteTodo k f db = (none, db1)) :
    (db.todos.filter (fun t => t.ID ≠ k)).length + 1 = db.todos.length ∧
    db1.todos.length + 1 = db.todos.length ∧
    db1.todos.map Todo.ID = idsUpTo (db.todos.length - 1) ∧
    db1.todos.Perm ((db.todos.filter (fun t => t.ID ≠ k)).map
      (fun t => { t with ID := 1 + rank (db.todos.filter (fun u => u.ID ≠ k)) t })) := by
  obtain ⟨_, tx2, hr, hdb⟩ := DeleteTodo_ok hok
  obtain ⟨_, _, _, htodos, _, _, _⟩ := reindexTodos_ok hr
  simp only at htodos
  subst hdb
  have hlen := filter_ne_length db.todos k hnd hk
  have hnd1 : ((db.todos.filter (fun t => t.ID ≠ k)).map Todo.ID).Nodup :=
    hnd.sublist ((List.filter_sublist db.todos).map Todo.ID)
  rw [htodos]
  refine ⟨hlen, ?_, ?_, renum_sort_perm _ hnd1⟩
  · simp only [renumFrom_length, List.length_map, List.length_insertionSort]
    exact hlen
  · rw [renum_sort_ids]
    congr 1
    omega

/-- C2, at the scenario of the specification: after "Buy milk" got id 1 and "Call mom"
id 2, deleting 1 leaves "Call mom" with id 1. -/
theorem deleteTodo_removes_and_renumbers_witness :
    (dbMilkMom.todos.map Todo.ID).Nodup ∧ (1 : Int) ∈ dbMilkMom.todos.map Todo.ID ∧
    DeleteTodo 1 noFault dbMilkMom = (none, dbMom) ∧
    ((dbMilkMom.todos.filter (fun t => t.ID ≠ 1)).length + 1 = dbMilkMom.todos.length ∧
     dbMom.todos.length + 1 = dbMilkMom.todos.length ∧
     dbMom.todos.map Todo.ID = idsUpTo (dbMilkMom.todos.length - 1) ∧
     dbMom.todos.Perm ((dbMilkMom.todos.filter (fun t => t.ID ≠ 1)).map
       (fun t => { t with ID := 1 + rank (dbMilkMom.todos.filter (fun u => u.ID ≠ 1)) t }))) :=
  ⟨by decide, by decide, by decide,
    deleteTodo_removes_and_renumbers 1 noFault dbMilkMom dbMom (by decide) (by decide) (by decide)⟩

/-! ## Atomicity -/

/-- C8. Whatever the store holds: when one of the engine calls of `ReindexAll` fails (begin,
staging copy, table clear, counter reset, reinsert, staging drop, commit) the call returns
an error, and a `ReindexAll` that returns an error leaves the store exactly as it was; the
same holds for `DeleteTodo` and its engine calls (those of `ReindexAll`, the delete and
its row count). -/
theorem failed_reindex_or_delete_changes_nothing (f : Fault) (db : DB) (id : Int) :
    ((∃ s ∈ reindexSteps, f s = true) → (ReindexAll f db).1 ≠ none) ∧
    ((ReindexAll f db).1 ≠ none → (ReindexAll f db).2 = db) ∧
    ((∃ s ∈ deleteSteps, f s = true) → (DeleteTodo id f db).1 ≠ none) ∧
    ((DeleteTodo id f db).1 ≠ none → (DeleteTodo id f db).2 = db) := by
  refine ⟨?_, ReindexAll_err f db, ?_, DeleteTodo_err id f db⟩
  · rintro ⟨s, hs, hf⟩ hnone
    have hok : ReindexAll f db = (none, (ReindexAll f db).2) := Prod.ext hnone rfl
    obtain ⟨hb, hc⟩ := ReindexAll_ok_steps hok
    obtain ⟨tx1, hr, -⟩ := ReindexAll_ok hok
    obtain ⟨h1, h2, h3, h4, h5⟩ := reindexTodos_ok_steps hr
    clear hok hnone hr
    simp only [reindexSteps, List.mem_cons, List.mem_singleton, List.not_mem_nil,
      or_false] at hs
    rcases hs with rfl | rfl | rfl | rfl | rfl | rfl | rfl <;> simp_all
  · rintro ⟨s, hs, hf⟩ hnone
    have hok : DeleteTodo id f db = (none, (DeleteTodo id f db).2) := Prod.ext hnone rfl
    obtain ⟨hb, hd, hdr, hc⟩ := DeleteTodo_ok_steps hok
    obtain ⟨-, tx2, hr, -⟩ := DeleteTodo_ok hok
    obtain ⟨h1, h2, h3, h4, h5⟩ := reindexTodos_ok_steps hr
    clear hok hnone hr
    simp only [deleteSteps, List.mem_cons, List.mem_singleton, List.not_mem_nil,
      or_false] at hs
    rcases hs with rfl | rfl | rfl | rfl | rfl | rfl | rfl | rfl | rfl <;> simp_all

/-- C8, at the two-task store with the reinsert failing: both calls report an error and
the store still holds both tasks under their ids. -/
theorem failed_reindex_or_delete_changes_nothing_witness :
    (∃ s ∈ reindexSteps, faultAt .reinsert s = true) ∧
    (ReindexAll (faultAt .reinsert) dbMilkMom).1 ≠ none ∧
    (ReindexAll (faultAt .reinsert) dbMilkMom).2 = dbMilkMom ∧
    (∃ s ∈ deleteSteps, faultAt .reinsert s = true) ∧
    (DeleteTodo 1 (faultAt .reinsert) dbMilkMom).1 ≠ none ∧
    (DeleteTodo 1 (faultAt .reinsert) dbMilkMom).2 = dbMilkMom :=
  have h := failed_reindex_or_delete_changes_nothing (faultAt .reinsert) dbMilkMom 1
  have e1 : ∃ s ∈ reindexSteps, faultAt .reinsert s = true := ⟨.reinsert, by decide, by decide⟩
  have e2 : ∃ s ∈ deleteSteps, faultAt .reinsert s = true := ⟨.reinsert, by decide, by decide⟩
  ⟨e1, h.1 e1, h.2.1 (h.1 e1), e2, h.2.2.1 e2, h.2.2.2 (h.2.2.1 e2)⟩

/-! ## The largest stored rowid -/

theorem maxRowid_eq_none {l : List Todo} (h : maxRowid l = none) : l = [] := by
  cases l with
  | nil => rfl
  | cons a l =>
    unfold maxRowid at h
    split at h <;> simp at h

theorem maxRowid_spec {l : List Todo} {m : Int} (h : maxRowid l = some m) :
    (∃ t ∈ l, t.ID = m) ∧ ∀ t ∈ l, t.ID ≤ m := by
  induction l generalizing m with
  | nil => simp [maxRowid] at h
  | cons a l ih =>
    unfold maxRowid at h
    cases hm : maxRowid l with
    | none =>
      rw [hm] at h
      simp only [Option.some.injEq] at h
      have hl := maxRowid_eq_none hm
      subst hl
      subst h
      exact ⟨⟨a, List.mem_cons_self _ _, rfl⟩, by simp⟩
    | some m1 =>
      rw [hm] at h
      simp only [Option.some.injEq] at h
      obtain ⟨⟨t, ht, hte⟩, hall⟩ := ih hm
      subst h
      constructor
      · rcases le_total a.ID m1 with hle | hle
        · exact ⟨t, List.mem_cons_of_mem _ ht, by rw [hte, max_eq_right hle]⟩
        · exact ⟨a, List.mem_cons_self _ _, by rw [max_eq_left hle]⟩
      · intro u hu
        rcases List.mem_cons.mp hu with rfl | hu
        · exact le_max_left _ _
        · exact le_trans (hall u hu) (le_max_right _ _)

/-! ## Claims about reachable states -/

/-- C3 (amended). Whatever the store holds, an `AddTodo` that returns no error returns an
id that is greater than every stored id and than the counter of the table (0 when there
is none), and is one more than the counter, or one more than a stored id, or 1 on an
empty table: one more than the larger of the largest stored id and the counter.  In every
store state reached from the empty store by calls of `AddTodo`, `MarkDone`, `DeleteTodo`
and `ReindexAll` that id is 1 when the store is empty and otherwise one more than the
largest stored id.  In both cases the stored tasks afterwards are the former ones, as they
were, followed by one new task with that id, the given text, done = false, the current
time as creation time and no completion time, and the counter stands at that id. -/
theorem addTodo_next_id_from_counter (task : String) (now : Nat) (f : Fault) (db db1 : DB)
    (id : Int) (hok : AddTodo task now f db = (.ok id, db1)) :
    ((∀ t ∈ db.todos, t.ID < id) ∧ db.seq.getD 0 < id ∧
      ((db.todos = [] ∧ id = 1) ∨ id = db.seq.getD 0 + 1 ∨ ∃ t ∈ db.todos, id = t.ID + 1)) ∧
    (Reachable db →
      (db.todos = [] → id = 1) ∧ (db.todos ≠ [] → ∃ t ∈ db.todos, id = t.ID + 1)) ∧
    db1.todos = db.todos ++
      [{ ID := id, Task := task, Done := false, CreatedAt := now, DoneAt := none }] ∧
    db1.seq = some id := by
  obtain ⟨hv, hdb⟩ := AddTodo_ok hok
  have hnv := newRowid_eq_some hv
  refine ⟨?_, ?_, by rw [hdb], by rw [hdb]⟩
  · unfold nextVal at hnv
    cases hm : maxRowid db.todos with
    | none =>
      rw [hm] at hnv
      simp only at hnv
      have hl := maxRowid_eq_none hm
      refine ⟨by simp [hl], ?_, ?_⟩
      · generalize db.seq.getD 0 = y at *
        simp only [max_def] at hnv
        split_ifs at hnv <;> omega
      · generalize db.seq.getD 0 = y at *
        simp only [max_def] at hnv
        split_ifs at hnv
        · exact Or.inr (Or.inl hnv)
        · exact Or.inl ⟨hl, hnv⟩
    | some m =>
      rw [hm] at hnv
      simp only at hnv
      obtain ⟨⟨t, ht, hte⟩, hall⟩ := maxRowid_spec hm
      refine ⟨?_, ?_, ?_⟩
      · intro u hu
        have := hall u hu
        generalize db.seq.getD 0 = y at *
        simp only [max_def] at hnv
        split_ifs at hnv <;> omega
      · generalize db.seq.getD 0 = y at *
        simp only [max_def] at hnv
        split_ifs at hnv <;> omega
      · generalize db.seq.getD 0 = y at *
        simp only [max_def] at hnv
        split_ifs at hnv
        · exact Or.inr (Or.inl hnv)
        · exact Or.inr (Or.inr ⟨t, ht, by rw [hte]; exact hnv⟩)
  · intro hreach
    have hinv := inv_of_reachable hreach
    have hid : id = (db.todos.length : Int) + 1 := by
      rw [hnv, hinv.next]
    constructor
    · intro he
      rw [hid, he]
      rfl
    · intro hne
      have hpos : 0 < db.todos.length := List.length_pos.mpr hne
      have hmem : ((db.todos.length : Nat) : Int) ∈ db.todos.map Todo.ID := by
        rw [hinv.ids]
        exact mem_idsUpTo.mpr ⟨by omega, le_refl _⟩
      obtain ⟨t, ht, hte⟩ := List.mem_map.mp hmem
      exact ⟨t, ht, by rw [hid, hte]⟩

/-- C3 (amended), after the two creations of the scenario: the store is reachable and the
third task gets id 3, one more than the largest stored id. -/
theorem addTodo_next_id_from_counter_witness :
    AddTodo "Walk dog" 3 noFault dbMilkMom = (.ok 3, dbMilkMomDog) ∧
    Reachable dbMilkMom ∧
    ((∀ t ∈ dbMilkMom.todos, t.ID < 3) ∧ dbMilkMom.seq.getD 0 < 3 ∧
      ((dbMilkMom.todos = [] ∧ (3 : Int) = 1) ∨ (3 : Int) = dbMilkMom.seq.getD 0 + 1 ∨
        ∃ t ∈ dbMilkMom.todos, (3 : Int) = t.ID + 1)) ∧
    ((dbMilkMom.todos = [] → (3 : Int) = 1) ∧
      (dbMilkMom.todos ≠ [] → ∃ t ∈ dbMilkMom.todos, (3 : Int) = t.ID + 1)) ∧
    dbMilkMomDog.todos = dbMilkMom.todos ++
      [{ ID := 3, Task := "Walk dog", Done := false, CreatedAt := 3, DoneAt := none }] ∧
    dbMilkMomDog.seq = some 3 :=
  have h := addTodo_next_id_from_counter "Walk dog" 3 noFault dbMilkMom dbMilkMomDog 3 rfl
  ⟨rfl, reachable_dbMilkMom, h.1, h.2.1 reachable_dbMilkMom, h.2.2.1, h.2.2.2⟩

/-- C3, as stated, fails.  In the store `{5:"A", 9:"B"}` whose counter stands at 12,
`AddTodo` returns 13, which is not one more than the largest stored id 9; and in the store
with an empty table whose counter stands at 12 it returns 13 as well, not 1. -/
theorem addTodo_next_id_counterexample :
    (AddTodo "C" 30 noFault dbA5B9 =
      (.ok 13,
        { todos := [⟨9, "B", false, 20, none⟩, ⟨5, "A", true, 10, some 15⟩,
            ⟨13, "C", false, 30, none⟩],
          seq := some 13, todos_temp := none }) ∧
      (∀ t ∈ dbA5B9.todos, t.ID ≤ 9) ∧ (∃ t ∈ dbA5B9.todos, t.ID = 9) ∧
      (13 : Int) ≠ 9 + 1) ∧
    (AddTodo "C" 30 noFault dbEmptyCounter12 =
      (.ok 13, { todos := [⟨13, "C", false, 30, none⟩], seq := some 13, todos_temp := none }) ∧
      dbEmptyCounter12.todos = [] ∧ (13 : Int) ≠ 1) :=
  ⟨⟨rfl, by decide, by decide, by decide⟩, ⟨rfl, rfl, by decide⟩⟩

/-- C4. In every store state reached from the empty store by calls of `AddTodo`,
`MarkDone`, `DeleteTodo` and `ReindexAll`, failing or not, the ids of the stored tasks
are pairwise distinct. -/
theorem reachable_ids_distinct (db : DB) (hreach : Reachable db) :
    (db.todos.map Todo.ID).Nodup := by
  rw [(inv_of_reachable hreach).ids]
  exact idsUpTo_nodup _

/-- C4, at the store of the two creations. -/
theorem reachable_ids_distinct_witness :
    Reachable dbMilkMom ∧ (dbMilkMom.todos.map Todo.ID).Nodup :=
  ⟨reachable_dbMilkMom, reachable_ids_distinct dbMilkMom reachable_dbMilkMom⟩

/-- C9. In every store state reached from the empty store by calls of `AddTodo`,
`MarkDone`, `DeleteTodo` and `ReindexAll`, every stored task has a completion time if and
only if its done flag is true. -/
theorem reachable_doneAt_iff_done (db : DB) (hreach : Reachable db) :
    ∀ t ∈ db.todos, (t.DoneAt.isSome = true ↔ t.Done = true) := by
  intro t ht
  rw [(inv_of_reachable hreach).doneAt t ht]

/-- C9, at the store of the two creations after the first task was completed. -/
theorem reachable_doneAt_iff_done_witness :
    Reachable dbMilkDoneMom ∧
    ∀ t ∈ dbMilkDoneMom.todos, (t.DoneAt.isSome = true ↔ t.Done = true) :=
  have h : Reachable dbMilkDoneMom := Reachable.step (.markDone 1 5) noFault reachable_dbMilkMom
  ⟨h, reachable_doneAt_iff_done dbMilkDoneMom h⟩

/-! ## Claims about single calls -/

theorem doneIdLe_explicit {a b : Todo} (h : doneIdLe a b) :
    (a.Done = false ∧ b.Done = true) ∨ (a.Done = b.Done ∧ a.ID ≤ b.ID) := by
  unfold doneIdLe at h
  cases ha : a.Done <;> cases hb : b.Done <;> simp [ha, hb, Bool.toNat] at h ⊢ <;> exact h

theorem map_mark_absent (id : Int) (now : Nat) (l : List Todo) (h : id ∉ l.map Todo.ID) :
    l.map (fun t => if t.ID = id then { t with Done := true, DoneAt := some now } else t) = l := by
  have : ∀ t ∈ l, (if t.ID = id then ({ t with Done := true, DoneAt := some now } : Todo) else t)
      = t := by
    intro t ht
    have hne : t.ID ≠ id := fun he => h (he ▸ List.mem_map_of_mem _ ht)
    simp [hne]
  rw [List.map_congr_left this, List.map_id']

theorem countP_absent (id : Int) (l : List Todo) (h : id ∉ l.map Todo.ID) :
    l.countP (fun t => t.ID = id) = 0 := by
  rw [List.countP_eq_zero]
  intro t ht
  have hne : t.ID ≠ id := fun he => h (he ▸ List.mem_map_of_mem _ ht)
  simp [hne]

theorem countP_present (id : Int) (l : List Todo) (h : id ∈ l.map Todo.ID) :
    l.countP (fun t => t.ID = id) ≠ 0 := by
  obtain ⟨t, ht, hte⟩ := List.mem_map.mp h
  have : 0 < l.countP (fun t => t.ID = id) :=
    List.countP_pos_iff.mpr ⟨t, ht, by simp [hte]⟩
  omega

/-- C5. Whatever the store holds, for an id no stored task has: `MarkDone` and
`DeleteTodo` each return an error and leave the store exactly as it was (same rows, same
ids, same counter), so that `ListTodos` answers afterwards what it answered before; and
when the engine itself reports no failure, the error is the not-found error for that id. -/
theorem absent_id_not_found_no_change (id : Int) (now : Nat) (f : Fault) (db : DB)
    (habs : id ∉ db.todos.map Todo.ID) :
    ((MarkDone id now f db).1 ≠ none ∧ (MarkDone id now f db).2 = db ∧
      (f .update = false → f .updateRows = false →
        (MarkDone id now f db).1 = some (.notFound id)) ∧
      ∀ showDone g, ListTodos showDone g (MarkDone id now f db).2 = ListTodos showDone g db) ∧
    ((DeleteTodo id f db).1 ≠ none ∧ (DeleteTodo id f db).2 = db ∧
      (f .txBegin = false → f .delete = false → f .deleteRows = false →
        (DeleteTodo id f db).1 = some (.notFound id)) ∧
      ∀ showDone g, ListTodos showDone g (DeleteTodo id f db).2 = ListTodos showDone g db) := by
  have hmap := map_mark_absent id now db.todos habs
  have hcnt := countP_absent id db.todos habs
  have hM : (MarkDone id now f db).1 ≠ none ∧ (MarkDone id now f db).2 = db ∧
      (f .update = false → f .updateRows = false →
        (MarkDone id now f db).1 = some (.notFound id)) := by
    unfold MarkDone
    by_cases h1 : f .update = true
    · simp [h1]
    · by_cases h2 : f .updateRows = true
      · simp [h1, h2, hmap]
      · simp [h1, h2, hmap, hcnt]
  have hD1 : (DeleteTodo id f db).1 ≠ none := by
    intro hnone
    have hok : DeleteTodo id f db = (none, (DeleteTodo id f db).2) := Prod.ext hnone rfl
    exact (DeleteTodo_ok hok).1 hcnt
  have hD2 : (DeleteTodo id f db).2 = db := DeleteTodo_err id f db hD1
  refine ⟨⟨hM.1, hM.2.1, hM.2.2, ?_⟩, ⟨hD1, hD2, ?_, ?_⟩⟩
  · intro showDone g
    rw [hM.2.1]
  · intro h1 h2 h3
    simp [DeleteTodo, Begin, h1, h2, h3, hcnt]
  · intro showDone g
    rw [hD2]

/-- C5, at the two-task store and the id 7 with an engine that does not fail. -/
theorem absent_id_not_found_no_change_witness :
    (7 : Int) ∉ dbMilkMom.todos.map Todo.ID ∧
    MarkDone 7 9 noFault dbMilkMom = (some (.notFound 7), dbMilkMom) ∧
    DeleteTodo 7 noFault dbMilkMom = (some (.notFound 7), dbMilkMom) :=
  have h := absent_id_not_found_no_change 7 9 noFault dbMilkMom (by decide)
  ⟨by decide, Prod.ext (h.1.2.2.1 rfl rfl) h.1.2.1, Prod.ext (h.2.2.2.1 rfl rfl rfl) h.2.2.1⟩

/-- C6. Whatever the store holds, when the engine reports no failure: `ListTodos(false)`
returns the stored tasks with done = false, each once and no other, `ListTodos(true)`
returns all stored tasks, each once; both results are ordered with the tasks that are not
done before the done ones and, among tasks of equal done flag, by id ascending; an empty
store gives the empty result and no error. -/
theorem listTodos_filters_and_orders (f : Fault) (db : DB)
    (hq : f .query = false) (hs : f .scan = false) :
    (∃ open_, ListTodos false f db = .ok open_ ∧
      open_.Perm (db.todos.filter (fun t => t.Done == false)) ∧
      (∀ t ∈ open_, t.Done = false) ∧
      open_.Pairwise (fun a b =>
        (a.Done = false ∧ b.Done = true) ∨ (a.Done = b.Done ∧ a.ID ≤ b.ID))) ∧
    (∃ all_, ListTodos true f db = .ok all_ ∧
      all_.Perm db.todos ∧
      all_.Pairwise (fun a b =>
        (a.Done = false ∧ b.Done = true) ∨ (a.Done = b.Done ∧ a.ID ≤ b.ID))) ∧
    (db.todos = [] → ListTodos false f db = .ok [] ∧ ListTodos true f db = .ok []) := by
  refine ⟨⟨(db.todos.filter (fun t => t.Done == false)).insertionSort doneIdLe, ?_, ?_, ?_, ?_⟩,
    ⟨db.todos.insertionSort doneIdLe, ?_, ?_, ?_⟩, ?_⟩
  · simp [ListTodos, hq, hs]
  · exact List.perm_insertionSort _ _
  · intro t ht
    have := (List.perm_insertionSort doneIdLe _).subset ht
    simpa using (List.mem_filter.mp this).2
  · exact (List.sorted_insertionSort doneIdLe _).imp doneIdLe_explicit
  · simp [ListTodos, hq, hs]
  · exact List.perm_insertionSort _ _
  · exact (List.sorted_insertionSort doneIdLe _).imp doneIdLe_explicit
  · intro he
    simp [ListTodos, hq, hs, he]

/-- C6, at a store holding a done task between two open ones, stored out of order. -/
theorem listTodos_filters_and_orders_witness :
    noFault .query = false ∧ noFault .scan = false ∧
    ListTodos false noFault dbMixed
      = .ok [⟨2, "B", false, 2, none⟩, ⟨3, "C", false, 3, none⟩] ∧
    ListTodos true noFault dbMixed
      = .ok [⟨2, "B", false, 2, none⟩, ⟨3, "C", false, 3, none⟩, ⟨1, "A", true, 1, some 4⟩] ∧
    (∃ all_, ListTodos true noFault dbMixed = .ok all_ ∧ all_.Perm dbMixed.todos ∧
      all_.Pairwise (fun a b =>
        (a.Done = false ∧ b.Done = true) ∨ (a.Done = b.Done ∧ a.ID ≤ b.ID))) :=
  ⟨rfl, rfl, rfl, rfl, (listTodos_filters_and_orders noFault dbMixed rfl rfl).2.1⟩

/-- C7. Whatever the store holds, for the id of a stored task, open or done, when the
engine reports no failure: `MarkDone` returns no error; afterwards the store has the same
number of rows in the same places, every row with that id has done = true and the time of
the call as completion time (whatever it was before) and its id, text and creation time
as before, every other row is as before, and the counter is as before. -/
theorem markDone_sets_done_and_time (id : Int) (now : Nat) (f : Fault) (db : DB)
    (hmem : id ∈ db.todos.map Todo.ID)
    (hu : f .update = false) (hr : f .updateRows = false) :
    (MarkDone id now f db).1 = none ∧
    (MarkDone id now f db).2.todos.length = db.todos.length ∧
    (∀ (i : Nat) (t : Todo), db.todos[i]? = some t →
      ∃ t1, (MarkDone id now f db).2.todos[i]? = some t1 ∧
        t1.ID = t.ID ∧ t1.Task = t.Task ∧ t1.CreatedAt = t.CreatedAt ∧
        (t.ID = id → t1.Done = true ∧ t1.DoneAt = some now) ∧
        (t.ID ≠ id → t1 = t)) ∧
    (MarkDone id now f db).2.seq = db.seq ∧
    (MarkDone id now f db).2.todos_temp = db.todos_temp := by
  have hcnt := countP_present id db.todos hmem
  have hdb : MarkDone id now f db = (none, { db with
      todos := db.todos.map
        (fun t => if t.ID = id then { t with Done := true, DoneAt := some now } else t) }) := by
    simp [MarkDone, hu, hr, hcnt]
  rw [hdb]
  refine ⟨rfl, by simp, ?_, rfl, rfl⟩
  intro i t hi
  refine ⟨if t.ID = id then { t with Done := true, DoneAt := some now } else t, ?_, ?_⟩
  · simp [List.getElem?_map, hi]
  · by_cases hid : t.ID = id <;> simp [hid]

/-- C7, at the store whose first task is already done: completing it again at time 8
overwrites the completion time 5. -/
theorem markDone_sets_done_and_time_witness :
    (1 : Int) ∈ dbMilkDoneMom.todos.map Todo.ID ∧
    noFault .update = false ∧ noFault .updateRows = false ∧
    MarkDone 1 8 noFault dbMilkDoneMom =
      (none, { todos := [⟨1, "Buy milk", true, 1, some 8⟩, ⟨2, "Call mom", false, 2, none⟩],
               seq := some 2, todos_temp := none }) ∧
    (MarkDone 1 8 noFault dbMilkDoneMom).1 = none :=
  ⟨by decide, rfl, rfl, by decide,
    (markDone_sets_done_and_time 1 8 noFault dbMilkDoneMom (by decide) rfl rfl).1⟩

/-! ## The `add` command -/

/-- With at least one argument, the `add` command calls `AddTodo` with the arguments
joined by single blanks, whatever they are, and leaves the store as `AddTodo` leaves it. -/
theorem addRunE_passes_joined_args (a : String) (rest : List String) (now : Nat) (f : Fault)
    (db : DB) :
    (addRunE (a :: rest) now f db).2 = (AddTodo (" ".intercalate (a :: rest)) now f db).2 := by
  unfold addRunE
  simp only [List.length_cons, Nat.add_one_ne_zero, if_false]
  split <;> simp_all

/-- C10. Called with the single empty argument, whose joined description is empty, the
`add` command returns no error and the store receives a task with the empty description. -/
theorem addRunE_stores_empty_description :
    " ".intercalate [""] = "" ∧
    addRunE [""] 7 noFault DB.empty =
      (.ok (1, ""), { todos := [⟨1, "", false, 7, none⟩], seq := some 1, todos_temp := none }) :=
  ⟨rfl, rfl⟩

end Tox
